import Mathlib

set_option linter.unusedSectionVars false

/-!
Shallow embedding of `src/gptk/libgptk/optimisation/ModelTrainer.cpp`
(class `ModelTrainer`: the objective/gradient oracle with parameter
masking, the gradient-check diagnostic, the Brent-style line minimiser
iteration and the `bracketMinimum` bracketing algorithm), together with
theorems settling the specification claims about it.

The machine `double` type is modelled by an arbitrary linear ordered
field `K` for the oracle/masking layer (so that concrete witnesses can
be evaluated over `ℚ`), and by `ℝ` for the bracketing / line-search
layer, whose constants involve the golden ratio.  `vec` (it++ dense
vector) is modelled by `List K`; an out-of-bounds `vec` element access
and a failed `assert` are both modelled by `Option.none`.
-/

/-- The mutable state of a `ModelTrainer` session joined with the state of
the external model it owns: `modelParams` is the model's full parameter
vector (`model.getParametersVector()` / `model.setParametersVector`), the
other fields are the data members set up in the `ModelTrainer` constructor
(`ModelTrainer.cpp` lines 43-63). -/
structure TrainerState (K : Type) where
  modelParams : List K
  functionEvaluations : ℕ
  gradientEvaluations : ℕ
  functionValue : K
  maskSet : Bool
  optimisationMask : List Bool
  epsilon : K
  analyticGradients : Bool
  errorTolerance : K
  parameterTolerance : K
  lineMinimiserIterations : ℕ
  lineMinimiserParameterTolerance : K
  display : Bool
  gradientCheck : Bool
deriving DecidableEq

variable {K : Type} [LinearOrderedField K]

/-- The masked write loop of `ModelTrainer::setParameters` (lines 128-140):
`maskedParameters` starts as the model's full vector `full`; positions
where the mask is `true` are overwritten with the entries of `p` in
ascending order (`pos` walks through `p`).  `none` models an
out-of-bounds `vec` access: reading `p(pos)` past the end of `p`, or
writing `maskedParameters(i)` past the end of the full vector. -/
def applyMask : List Bool → List K → List K → Option (List K)
  | [], full, _ => some full
  | true :: ms, _f :: fs, q :: qs => (applyMask ms fs qs).map (fun r => q :: r)
  | true :: _, _, _ => none
  | false :: ms, f :: fs, p => (applyMask ms fs p).map (fun r => f :: r)
  | false :: ms, [], p => applyMask ms [] p

/-- The masked read loop of `ModelTrainer::getParameters` (lines 155-161):
the entries of the full vector at `true` mask positions, concatenated in
ascending index order. -/
def extractMask : List Bool → List K → List K
  | true :: ms, q :: qs => q :: extractMask ms qs
  | false :: _ms, _ :: qs => extractMask _ms qs
  | _, _ => []

/-- `ModelTrainer::setParameters` (lines 126-146).  With a mask set, the
supplied vector is scattered into the `true` positions of the model's
current full parameter vector; otherwise the supplied vector is installed
as the full parameter vector. -/
def setParameters (p : List K) (st : TrainerState K) : Option (TrainerState K) :=
  if st.maskSet then
    (applyMask st.optimisationMask st.modelParams p).map
      (fun mp => { st with modelParams := mp })
  else
    some { st with modelParams := p }

/-- `ModelTrainer::getParameters` (lines 148-168).  With a mask set, the
`assert(optimisationMask.size() == p.size())` is modelled by returning
`none` on length mismatch. -/
def getParameters (st : TrainerState K) : Option (List K) :=
  if st.maskSet then
    if st.optimisationMask.length = st.modelParams.length then
      some (extractMask st.optimisationMask st.modelParams)
    else
      none
  else
    some st.modelParams

/-- `ModelTrainer::errorFunction` (lines 70-75): bump the function
evaluation counter, push the parameters into the model, return the
model's objective.  The external model's `objective()` member is the
function `obj` of the installed full parameter vector. -/
def errorFunction (obj : List K → K) (params : List K) (st : TrainerState K) :
    Option (K × TrainerState K) :=
  (setParameters params
      { st with functionEvaluations := st.functionEvaluations + 1 }).map
    (fun st' => (obj st'.modelParams, st'))

/-- The value any objective evaluation at `p` from state `st` returns
(mask application followed by the model objective), without the counter
side effect: used to state what `errorFunction` computes. -/
def objAt (obj : List K → K) (p : List K) (st : TrainerState K) : Option K :=
  (setParameters p st).map (fun s => obj s.modelParams)

/-- `ModelTrainer::calculateNumericalGradient` (lines 105-124): central
difference `0.5 * ((fplus - fminus) / epsilon)` where `fplus`/`fminus`
are objective evaluations at `params` with `epsilon` added/subtracted at
index `parameterNumber` (the `cout` tracing is dropped). -/
def calculateNumericalGradient (obj : List K → K) (parameterNumber : ℕ)
    (params : List K) (st : TrainerState K) : Option (K × TrainerState K) := do
  let xi ← params.get? parameterNumber
  let (fplus, st1) ← errorFunction obj (params.set parameterNumber (xi + st.epsilon)) st
  let xi2 ← params.get? parameterNumber
  let (fminus, st2) ← errorFunction obj (params.set parameterNumber (xi2 - st1.epsilon)) st1
  pure ((1 / 2) * ((fplus - fminus) / st2.epsilon), st2)

/-- The `for` loop of `ModelTrainer::numericalGradients` (lines 98-101):
`g(i) = calculateNumericalGradient(i, params)` for each index in turn,
threading the state.  The fuel argument is the number of remaining
indices. -/
def numericalGradientsLoop (obj : List K → K) (params : List K) :
    ℕ → ℕ → TrainerState K → Option (List K × TrainerState K)
  | _, 0, st => some ([], st)
  | i, n + 1, st => do
    let (gi, st1) ← calculateNumericalGradient obj i params st
    let (rest, st2) ← numericalGradientsLoop obj params (i + 1) n st1
    pure (gi :: rest, st2)

/-- `ModelTrainer::numericalGradients` (lines 91-103). -/
def numericalGradients (obj : List K → K) (params : List K) (st : TrainerState K) :
    Option (List K × TrainerState K) := do
  let st0 ← setParameters params st
  numericalGradientsLoop obj params 0 params.length st0

/-- `ModelTrainer::errorGradients` (lines 77-89): on the analytic path,
bump the gradient evaluation counter, push parameters and return the
model's analytic gradient (`grad` of the installed full vector);
otherwise delegate to the numerical gradients. -/
def errorGradients (obj : List K → K) (grad : List K → List K) (params : List K)
    (st : TrainerState K) : Option (List K × TrainerState K) :=
  if st.analyticGradients then
    (setParameters params
        { st with gradientEvaluations := st.gradientEvaluations + 1 }).map
      (fun st' => (grad st'.modelParams, st'))
  else
    numericalGradients obj params st

/-- `ModelTrainer::lineFunction` (lines 227-234): save the current
(masked) parameters, evaluate the objective at `param + lambda *
direction`, restore the saved parameters, return the objective value. -/
def lineFunction (obj : List K → K) (param : List K) (lam : K) (direction : List K)
    (st : TrainerState K) : Option (K × TrainerState K) := do
  let xOld ← getParameters st
  let (f, st1) ← errorFunction obj
      (List.zipWith (fun x d => x + lam * d) param direction) st
  let st2 ← setParameters xOld st1
  pure (f, st2)

/-- The reporting loop of `ModelTrainer::checkGradient` (lines 185-209),
walking the analytic gradient entries with the absolute index `i` and
the masked-subset position `pos`; each row of the report is the pair
(numerical gradient, analytic gradient) that the code prints: a
masked-out index reports `(0, 0)` (the code sets `delta = 0.0; gNew(i) =
0.0`).  `st.optimisationMask.get? i = none` models the out-of-bounds
mask access. -/
def checkGradLoop (obj : List K → K) (xOld : List K) :
    ℕ → ℕ → List K → TrainerState K → Option (List (K × K) × TrainerState K)
  | _, _, [], st => some ([], st)
  | i, pos, gi :: gs, st =>
    if st.maskSet then
      match st.optimisationMask.get? i with
      | none => none
      | some true => do
        let (delta, st1) ← calculateNumericalGradient obj pos xOld st
        let (rest, st2) ← checkGradLoop obj xOld (i + 1) (pos + 1) gs st1
        pure ((delta, gi) :: rest, st2)
      | some false => do
        let (rest, st2) ← checkGradLoop obj xOld (i + 1) pos gs st
        pure (((0 : K), (0 : K)) :: rest, st2)
    else do
      let (delta, st1) ← calculateNumericalGradient obj i xOld st
      let (rest, st2) ← checkGradLoop obj xOld (i + 1) (pos + 1) gs st1
      pure ((delta, gi) :: rest, st2)

/-- `ModelTrainer::checkGradient` (lines 170-212): take the current
(masked) parameters `xOld`, take the model's analytic gradient directly
(`model.gradient()`, no counter, no parameter push), and for each entry
report the central-difference and analytic gradient components. -/
def checkGradient (obj : List K → K) (grad : List K → List K) (st : TrainerState K) :
    Option (List (K × K) × TrainerState K) := do
  let xOld ← getParameters st
  let gNew := grad st.modelParams
  checkGradLoop obj xOld 0 0 gNew st

/-- Modelled from the spec: the golden-ratio constant `PHI` used by
`bracketMinimum`; its definition lives in `ModelTrainer.h`, which is not
part of the source slice ("φ = golden ratio", spec section 4.2). -/
noncomputable def PHI : ℝ := (1 + Real.sqrt 5) / 2

/-- Modelled from the spec: the "fixed tiny constant" floor `TINY` that
guards every division (spec sections 4.2/4.3, 7); its value lives in
`ModelTrainer.h`, which is not part of the source slice.  Any fixed tiny
positive value is faithful to the spec's words. -/
noncomputable def TINY : ℝ := 1 / 10 ^ 10

/-- Modelled from the spec: the scaling constant `TOL` of the
line-minimiser tolerance `tol1 = TOL * |x| + TINY` ("a tolerance
threshold from the parameter tolerance and a small numeric floor", spec
section 4.3); defined in the missing `ModelTrainer.h`. -/
noncomputable def TOL : ℝ := 1 / 10 ^ 4

/-- Modelled from the spec: the golden-ratio complement `CPHI`
(`1 - 1/φ = 2 - φ`) used for golden-section steps (spec sections 4.3 and
glossary); defined in the missing `ModelTrainer.h`. -/
noncomputable def CPHI : ℝ := 2 - PHI

/-- The local constant `max_step = 10.0` of `bracketMinimum` (line 377). -/
noncomputable def maxStep : ℝ := 10

/-- The `sign` function used by the line minimiser and bracketer
(`sign(0) = 0`, as in it++/Matlab). -/
noncomputable def signR (x : ℝ) : ℝ := if 0 < x then 1 else if x < 0 then -1 else 0

/-- Modelled from the spec: a strictly unimodal 1-D function, strictly
decreasing up to its minimiser and strictly increasing after it. -/
def StrictUnimodal (f : ℝ → ℝ) : Prop :=
  ∃ m, StrictAntiOn f (Set.Iic m) ∧ StrictMonoOn f (Set.Ici m)

/-- The per-iteration scalar state of `ModelTrainer::lineMinimiser`
(lines 238-239): the current bracket, the best/second/third points with
their function values, and the two step bookkeeping scalars. -/
structure LMState where
  brMin : ℝ
  brMax : ℝ
  x : ℝ
  w : ℝ
  v : ℝ
  e : ℝ
  d : ℝ
  fx : ℝ
  fw : ℝ
  fv : ℝ

/-- Result of one iteration of the `lineMinimiser` loop: either the
termination test fired (`stop`, reporting `fx` and recording it in
`functionValue`), or the loop continues with updated scalar state. -/
inductive LMOutcome where
  | stop (fx : ℝ) (st : TrainerState ℝ)
  | next (s : LMState) (st : TrainerState ℝ)

/-- Whether an `LMOutcome` is the terminating one. -/
def LMOutcome.isStopB : LMOutcome → Bool
  | .stop _ _ => true
  | .next _ _ => false

/-- The trial-step selection of `lineMinimiser` (lines 262-310): returns
the updated pair `(e, d)`.  When the parabolic fit through
`(v,fv),(w,fw),(x,fx)` is rejected, a golden-section step `CPHI * e` into
the larger bracket half is taken; an accepted parabolic step landing too
close to a bracket edge is replaced by a one-tolerance nudge toward the
midpoint. -/
noncomputable def lmTrialStep (s : LMState) (xm tol1 : ℝ) : ℝ × ℝ :=
  if |s.e| > tol1 then
    let r := (s.fx - s.fv) * (s.x - s.w)
    let q := (s.fx - s.fw) * (s.x - s.v)
    let p := (s.x - s.v) * q - (s.x - s.w) * r
    let q2 := 2 * (q - r)
    let p2 := if q2 > 0 then -p else p
    let q3 := |q2|
    if |p2| ≥ |(1 / 2) * q3 * s.e| ∨ p2 ≤ q3 * (s.brMin - s.x) ∨
        p2 ≥ q3 * (s.brMax - s.x) then
      let e1 := if s.x ≥ xm then s.brMin - s.x else s.brMax - s.x
      (e1, CPHI * e1)
    else
      let e1 := s.d
      let d1 := p2 / q3
      let u := s.x + d1
      if u - s.brMin < 2 * tol1 ∨ s.brMax - u < 2 * tol1 then
        (e1, signR (xm - s.x) * tol1)
      else
        (e1, d1)
  else
    let e1 := if s.x ≥ xm then s.brMin - s.x else s.brMax - s.x
    (e1, CPHI * e1)

/-- The bookkeeping update of `lineMinimiser` (lines 323-366) after
evaluating `fu` at the trial point `u`, with the freshly selected
`(e, d)` pair. -/
noncomputable def lmUpdate (s : LMState) (u fu e1 d1 : ℝ) : LMState :=
  if fu ≤ s.fx then
    { brMin := if u ≥ s.x then s.x else s.brMin
      brMax := if u ≥ s.x then s.brMax else s.x
      x := u, w := s.x, v := s.w
      e := e1, d := d1
      fx := fu, fw := s.fx, fv := s.fw }
  else
    let brMin1 := if u < s.x then u else s.brMin
    let brMax1 := if u < s.x then s.brMax else u
    if fu ≤ s.fw ∨ s.w = s.x then
      { brMin := brMin1, brMax := brMax1
        x := s.x, w := u, v := s.w
        e := e1, d := d1
        fx := s.fx, fw := fu, fv := s.fw }
    else
      if fu ≤ s.fv ∨ s.v = s.x ∨ s.v = s.w then
        { brMin := brMin1, brMax := brMax1
          x := s.x, w := s.w, v := u
          e := e1, d := d1
          fx := s.fx, fw := s.fw, fv := fu }
      else
        { s with brMin := brMin1, brMax := brMax1, e := e1, d := d1 }

/-- One iteration of the `for` loop of `ModelTrainer::lineMinimiser`
(lines 251-367): compute the midpoint and tolerance, test the
termination condition (line 256) — on success record `functionValue :=
fx` and stop — otherwise select a trial step, evaluate the line function
at `u` and update the bookkeeping state. -/
noncomputable def lineMinimiserStep (obj : List ℝ → ℝ) (params direction : List ℝ)
    (s : LMState) (st : TrainerState ℝ) : Option LMOutcome :=
  let xm := (1 / 2) * (s.brMin + s.brMax)
  let tol1 := TOL * |s.x| + TINY
  if |s.x - xm| ≤ st.lineMinimiserParameterTolerance ∧
      s.brMax - s.brMin < 4 * st.lineMinimiserParameterTolerance then
    some (.stop s.fx { st with functionValue := s.fx })
  else
    let ed := lmTrialStep s xm tol1
    let u := if |ed.2| ≥ tol1 then s.x + ed.2 else s.x + signR ed.2 * tol1
    match lineFunction obj params u direction st with
    | none => none
    | some (fu, st1) => some (.next (lmUpdate s u fu ed.1 ed.2) st1)

/-- The bracket normalisation at the end of `bracketMinimum`
(lines 464-473): `br_mid = b`, and `(br_min, br_max)` is `(a, c)` put in
increasing order. -/
noncomputable def finishBracket (a b c : ℝ) : ℝ × ℝ × ℝ :=
  if a < c then (a, b, c) else (c, b, a)

/-- The golden-section shrink loop of `bracketMinimum` (lines 385-390),
entered when the objective at the initial step is worse than at the base
point: while `fb > fa`, move `b` to `a + (b - a) / PHI` (keeping the
previous `b` in `c`).  The 1-D line function is abstracted as the pure
function `g` (see `lineFunction_restores_parameters`: each
`lineFunction` call returns the same pure value and restores the
parameter state).  The fuel argument bounds the number of iterations;
`none` means the loop has not exited within the fuel. -/
noncomputable def shrinkLoop (g : ℝ → ℝ) (a fa : ℝ) :
    ℕ → ℝ → ℝ → ℝ → Option (ℝ × ℝ)
  | fuel, b, c, fb =>
    if fb > fa then
      match fuel with
      | 0 => none
      | n + 1 => shrinkLoop g a fa n (a + (b - a) / PHI) b (g (a + (b - a) / PHI))
    else some (b, c)

/-- The outward-expansion loop of `bracketMinimum` (lines 399-461),
transcribed branch for branch: while `fb > fc`, compute the inverse
parabolic interpolation point `u` (with the `sign`/`max`/`TINY` guard of
line 403) and dispatch on where `u` falls; the loop-tail rotation
`a = b; b = c; c = u; fa = fb; fb = fc; fc = fu` is reflected in the
arguments of each recursive call.  Note that in the `fu < fc` sub-branch
of the `(c, ulimit)` case (lines 431-436) the code moves `b = c; c = u`
and re-extrapolates `u` without rotating `fb`/`fc` before the common
tail runs. -/
noncomputable def expandLoop (g : ℝ → ℝ) :
    ℕ → ℝ → ℝ → ℝ → ℝ → ℝ → ℝ → Option (ℝ × ℝ × ℝ)
  | 0, a, b, c, _, fb, fc =>
    if fb > fc then none else some (finishBracket a b c)
  | fuel + 1, a, b, c, fa, fb, fc =>
    if fb > fc then
      let r := (b - a) * (fb - fc)
      let q := (b - c) * (fb - fa)
      let u := b - ((b - c) * q - (b - a) * r) /
          (2 * (signR (q - r) * max |q - r| TINY))
      let ulimit := b + maxStep * (c - b)
      if (b - u) * (u - c) > 0 then
        let fu := g u
        if fu < fc then some (b, u, c)
        else if fu > fb then some (a, c, u)
        else
          let u1 := c + PHI * (c - b)
          expandLoop g fuel b c u1 fb fc (g u1)
      else if (c - u) * (u - ulimit) > 0 then
        let fu := g u
        if fu < fc then
          let b1 := c
          let c1 := u
          let u1 := c1 + PHI * (c1 - b1)
          expandLoop g fuel b1 c1 u1 fb fc (g u1)
        else
          expandLoop g fuel b c u fb fc fu
      else if (u - ulimit) * (ulimit - c) ≥ 0 then
        expandLoop g fuel b c ulimit fb fc (g ulimit)
      else
        let u1 := c + PHI * (c - b)
        expandLoop g fuel b c u1 fb fc (g u1)
    else some (finishBracket a b c)

/-- `ModelTrainer::bracketMinimum` (lines 370-474) over the pure 1-D
line function `g` (each `lineFunction(params, t, direction)` call
returns the pure value `g t`; the state effects are settled separately).
Given the base point `a`, initial step `b` and base value `fa`, either
shrink toward `a` (when `g b > fa`) or expand outward, and normalise the
resulting triple.  `none` models non-termination within the given
fuel. -/
noncomputable def bracketMinimum (g : ℝ → ℝ) (a b fa : ℝ) (fuel : ℕ) :
    Option (ℝ × ℝ × ℝ) :=
  let fb := g b
  if fb > fa then
    let b1 := a + (b - a) / PHI
    (shrinkLoop g a fa fuel b1 b (g b1)).map (fun p => finishBracket a p.1 p.2)
  else
    let c := b + PHI * (b - a)
    expandLoop g fuel a b c fa fb (g c)

/-- The `ModelTrainer` constructor defaults (lines 43-63), joined with an
initial model parameter vector. -/
def initialState (params : List K) : TrainerState K :=
  { modelParams := params
    functionEvaluations := 0
    gradientEvaluations := 0
    functionValue := 0
    maskSet := false
    optimisationMask := []
    epsilon := 1 / 10 ^ 6
    analyticGradients := true
    errorTolerance := 1 / 10 ^ 6
    parameterTolerance := 1 / 10 ^ 4
    lineMinimiserIterations := 10
    lineMinimiserParameterTolerance := 1 / 10 ^ 4
    display := true
    gradientCheck := true }

/-- A strictly unimodal line function (quadratic left of its minimiser
`5`, shallow linear right of it) on which the expansion loop of
`bracketMinimum` is driven through the `(c, ulimit)` branch with its
stale `fa`/`fb` values and then returns an invalid bracket. -/
noncomputable def fStale : ℝ → ℝ := fun t => if t ≤ 5 then (t - 5) ^ 2 else (t - 5) / 10

/-- A strictly unimodal line function whose minimiser `-1` lies left of
the base point `0`: every golden-section shrink iterate keeps a value
above the base value, so the shrink loop of `bracketMinimum` never
reaches its exit condition (in exact real arithmetic). -/
noncomputable def fLeftMin : ℝ → ℝ := fun t => (t + 1) ^ 2

/-- A trainer state over `ℚ` with unit-free literal fields, used to
evaluate the embedded operations on concrete inputs. -/
def testState (params : List ℚ) (mask : Bool) (ms : List Bool) : TrainerState ℚ :=
  { modelParams := params
    functionEvaluations := 0
    gradientEvaluations := 0
    functionValue := 0
    maskSet := mask
    optimisationMask := ms
    epsilon := 1
    analyticGradients := true
    errorTolerance := 1
    parameterTolerance := 1
    lineMinimiserIterations := 10
    lineMinimiserParameterTolerance := 1
    display := true
    gradientCheck := true }

/-- A trainer state over `ℝ` whose general parameter tolerance (`1`) and
line-minimiser parameter tolerance (`1/100`) differ, exhibiting which of
the two the termination test of `lineMinimiser` reads. -/
noncomputable def lineMinCexState : TrainerState ℝ :=
  { modelParams := [0]
    functionEvaluations := 0
    gradientEvaluations := 0
    functionValue := 0
    maskSet := false
    optimisationMask := []
    epsilon := 1
    analyticGradients := true
    errorTolerance := 1
    parameterTolerance := 1
    lineMinimiserIterations := 10
    lineMinimiserParameterTolerance := 1 / 100
    display := true
    gradientCheck := true }

/-- The line-minimiser scalar state `x = 0` inside the bracket
`[-1, 1]`, for the termination-test counterexample. -/
noncomputable def lineMinCexLM : LMState :=
  { brMin := -1, brMax := 1, x := 0, w := 0, v := 0, e := 0, d := 0,
    fx := 0, fw := 0, fv := 0 }

lemma applyMask_nil_eq {ms : List Bool} {p full' : List K}
    (h : applyMask ms [] p = some full') : full' = [] := by
  induction ms generalizing p with
  | nil => simpa [applyMask] using h.symm
  | cons m ms ih =>
    cases m with
    | true => simp [applyMask] at h
    | false => exact ih h

lemma applyMask_length {ms : List Bool} {full p full' : List K}
    (h : applyMask ms full p = some full') : full'.length = full.length := by
  induction ms generalizing full p full' with
  | nil =>
    simp [applyMask] at h
    simp [h]
  | cons m ms ih =>
    cases m with
    | true =>
      cases full with
      | nil => simp [applyMask] at h
      | cons f fs =>
        cases p with
        | nil => simp [applyMask] at h
        | cons q qs =>
          simp only [applyMask, Option.map_eq_some'] at h
          obtain ⟨r, hr, hfull⟩ := h
          simp [← hfull, ih hr]
    | false =>
      cases full with
      | nil => simp [applyMask_nil_eq h]
      | cons f fs =>
        simp only [applyMask, Option.map_eq_some'] at h
        obtain ⟨r, hr, hfull⟩ := h
        simp [← hfull, ih hr]

lemma applyMask_congr {ms : List Bool} {full p full' : List K}
    (h : applyMask ms full p = some full') (q : List K) :
    applyMask ms full' q = applyMask ms full q := by
  induction ms generalizing full p full' q with
  | nil =>
    simp [applyMask] at h
    simp [h]
  | cons m ms ih =>
    cases m with
    | true =>
      cases full with
      | nil => simp [applyMask] at h
      | cons f fs =>
        cases p with
        | nil => simp [applyMask] at h
        | cons z zs =>
          simp only [applyMask, Option.map_eq_some'] at h
          obtain ⟨r, hr, hfull⟩ := h
          cases q with
          | nil => simp [← hfull, applyMask]
          | cons y ys => simp [← hfull, applyMask, ih hr]
    | false =>
      cases full with
      | nil => simp [applyMask_nil_eq h]
      | cons f fs =>
        simp only [applyMask, Option.map_eq_some'] at h
        obtain ⟨r, hr, hfull⟩ := h
        simp [← hfull, applyMask, ih hr]

lemma applyMask_take {ms : List Bool} {full : List K} (p : List K)
    (hm : ms.length = full.length) :
    applyMask ms full (p.take (ms.count true)) = applyMask ms full p := by
  induction ms generalizing full p with
  | nil => rfl
  | cons m ms ih =>
    cases full with
    | nil => simp at hm
    | cons f fs =>
      simp only [List.length_cons, Nat.succ.injEq] at hm
      cases m with
      | true =>
        cases p with
        | nil => simp [applyMask, List.count_cons]
        | cons q qs =>
          simp only [List.count_cons, if_pos rfl, applyMask, List.take_succ_cons]
          rw [ih qs hm]
      | false =>
        simp only [List.count_cons, applyMask]
        rw [if_neg (by simp), Nat.add_zero, ih p hm]

lemma applyMask_short_none {ms : List Bool} {full p : List K}
    (hm : ms.length = full.length) (hp : p.length < ms.count true) :
    applyMask ms full p = none := by
  induction ms generalizing full p with
  | nil => simp at hp
  | cons m ms ih =>
    cases full with
    | nil => simp at hm
    | cons f fs =>
      simp only [List.length_cons, Nat.succ.injEq] at hm
      cases m with
      | true =>
        cases p with
        | nil => simp [applyMask]
        | cons q qs =>
          simp only [List.count_cons, if_pos rfl, List.length_cons] at hp
          simp [applyMask, ih hm (Nat.lt_of_succ_lt_succ hp)]
      | false =>
        simp only [List.count_cons] at hp
        rw [if_neg (by simp), Nat.add_zero] at hp
        simp [applyMask, ih hm hp]

lemma extractMask_length {ms : List Bool} {full : List K}
    (hm : ms.length = full.length) :
    (extractMask ms full).length = ms.count true := by
  induction ms generalizing full with
  | nil => simp [extractMask]
  | cons m ms ih =>
    cases full with
    | nil => simp at hm
    | cons f fs =>
      simp only [List.length_cons, Nat.succ.injEq] at hm
      cases m with
      | true => simp [extractMask, List.count_cons, ih hm]
      | false =>
        simp only [extractMask, List.count_cons]
        rw [if_neg (by simp), Nat.add_zero]
        exact ih hm

lemma applyMask_extract {ms : List Bool} {full : List K}
    (hm : ms.length = full.length) :
    applyMask ms full (extractMask ms full) = some full := by
  induction ms generalizing full with
  | nil =>
    cases full with
    | nil => rfl
    | cons f fs => simp at hm
  | cons m ms ih =>
    cases full with
    | nil => simp at hm
    | cons f fs =>
      simp only [List.length_cons, Nat.succ.injEq] at hm
      cases m with
      | true => simp [extractMask, applyMask, ih hm]
      | false => simp [extractMask, applyMask, ih hm]

lemma applyMask_get_false {ms : List Bool} {full p full' : List K}
    (h : applyMask ms full p = some full') :
    ∀ i, ms.getD i false = false → full'.get? i = full.get? i := by
  induction ms generalizing full p full' with
  | nil =>
    simp only [applyMask, Option.some.injEq] at h
    simp [h]
  | cons m ms ih =>
    intro i hi
    cases m with
    | true =>
      cases full with
      | nil => simp [applyMask] at h
      | cons f fs =>
        cases p with
        | nil => simp [applyMask] at h
        | cons q qs =>
          simp only [applyMask, Option.map_eq_some'] at h
          obtain ⟨r, hr, hfull⟩ := h
          cases i with
          | zero => simp at hi
          | succ i => simpa [← hfull] using ih hr i (by simpa using hi)
    | false =>
      cases full with
      | nil =>
        have := applyMask_nil_eq h
        simp [this]
      | cons f fs =>
        simp only [applyMask, Option.map_eq_some'] at h
        obtain ⟨r, hr, hfull⟩ := h
        cases i with
        | zero => simp [← hfull]
        | succ i => simpa [← hfull] using ih hr i (by simpa using hi)

lemma applyMask_get_true {ms : List Bool} {full p full' : List K}
    (hm : ms.length = full.length) (h : applyMask ms full p = some full') :
    ∀ i, ms.getD i false = true →
      full'.get? i = p.get? ((ms.take i).count true) := by
  induction ms generalizing full p full' with
  | nil =>
    intro i hi
    simp at hi
  | cons m ms ih =>
    intro i hi
    cases full with
    | nil => simp at hm
    | cons f fs =>
      simp only [List.length_cons, Nat.succ.injEq] at hm
      cases m with
      | true =>
        cases p with
        | nil => simp [applyMask] at h
        | cons q qs =>
          simp only [applyMask, Option.map_eq_some'] at h
          obtain ⟨r, hr, hfull⟩ := h
          cases i with
          | zero => simp [← hfull]
          | succ i =>
            simp only [← hfull, List.take_succ_cons, List.count_cons, if_pos rfl]
            simpa [Nat.add_comm] using ih hm hr i (by simpa using hi)
      | false =>
        simp only [applyMask, Option.map_eq_some'] at h
        obtain ⟨r, hr, hfull⟩ := h
        cases i with
        | zero => simp at hi
        | succ i =>
          simp only [← hfull, List.take_succ_cons, List.count_cons]
          rw [if_neg (by simp), Nat.add_zero]
          simpa using ih hm hr i (by simpa using hi)

lemma extractMask_get {ms : List Bool} {full : List K}
    (hm : ms.length = full.length) :
    ∀ i, ms.getD i false = true →
      (extractMask ms full).get? ((ms.take i).count true) = full.get? i := by
  induction ms generalizing full with
  | nil =>
    intro i hi
    simp at hi
  | cons m ms ih =>
    intro i hi
    cases full with
    | nil => simp at hm
    | cons f fs =>
      simp only [List.length_cons, Nat.succ.injEq] at hm
      cases m with
      | true =>
        cases i with
        | zero => simp [extractMask]
        | succ i =>
          simp only [extractMask, List.take_succ_cons, List.count_cons, if_pos rfl]
          simpa [Nat.add_comm] using ih hm i (by simpa using hi)
      | false =>
        cases i with
        | zero => simp at hi
        | succ i =>
          simp only [extractMask, List.take_succ_cons, List.count_cons]
          rw [if_neg (by simp), Nat.add_zero]
          simpa using ih hm i (by simpa using hi)


lemma setParameters_modelParams_only {p : List K} {st st' : TrainerState K}
    (h : setParameters p st = some st') :
    st' = { st with modelParams := st'.modelParams } := by
  unfold setParameters at h
  by_cases hm : st.maskSet = true
  · rw [if_pos hm] at h
    obtain ⟨mp, _, he⟩ := Option.map_eq_some'.mp h
    rw [← he]
  · rw [if_neg hm] at h
    obtain he := Option.some.injEq _ _ ▸ h
    rw [← Option.some.injEq] at he
    injection he with he
    rw [← he]

lemma setParameters_feComm {p : List K} {st : TrainerState K} (n : ℕ) :
    setParameters p { st with functionEvaluations := n } =
      (setParameters p st).map (fun s => { s with functionEvaluations := n }) := by
  unfold setParameters
  by_cases hm : st.maskSet = true
  · rw [if_pos hm, if_pos hm]
    cases applyMask st.optimisationMask st.modelParams p <;> rfl
  · rw [if_neg hm, if_neg hm]
    rfl

lemma setParameters_geComm {p : List K} {st : TrainerState K} (n : ℕ) :
    setParameters p { st with gradientEvaluations := n } =
      (setParameters p st).map (fun s => { s with gradientEvaluations := n }) := by
  unfold setParameters
  by_cases hm : st.maskSet = true
  · rw [if_pos hm, if_pos hm]
    cases applyMask st.optimisationMask st.modelParams p <;> rfl
  · rw [if_neg hm, if_neg hm]
    rfl

lemma errorFunction_eq (obj : List K → K) (p : List K) (st : TrainerState K) :
    errorFunction obj p st = (setParameters p st).map
      (fun s => (obj s.modelParams,
        { s with functionEvaluations := st.functionEvaluations + 1 })) := by
  unfold errorFunction
  rw [setParameters_feComm]
  cases setParameters p st <;> rfl

/-- Claim C4: with a mask set, `setParameters` writes the supplied
active-subset values exactly into the `true` positions of the model's
full parameter vector, taken in ascending index order (the value landing
at full index `i` is the entry of `p` at the rank of `i` among the
`true` positions), every `false` position keeps its previous value, and
`getParameters` extracts exactly the `true` positions in ascending index
order (one entry per `true` position; the entry at the rank of `i` is
the full vector's entry at `i`). -/
theorem setParameters_getParameters_mask_spec {K : Type} [LinearOrderedField K]
    (st st' : TrainerState K) (p : List K)
    (hmask : st.maskSet = true)
    (hm : st.optimisationMask.length = st.modelParams.length)
    (hset : setParameters p st = some st') :
    (∀ i, st.optimisationMask.getD i false = false →
        st'.modelParams.get? i = st.modelParams.get? i) ∧
    (∀ i, st.optimisationMask.getD i false = true →
        st'.modelParams.get? i = p.get? ((st.optimisationMask.take i).count true)) ∧
    getParameters st = some (extractMask st.optimisationMask st.modelParams) ∧
    (extractMask st.optimisationMask st.modelParams).length =
      st.optimisationMask.count true ∧
    (∀ i, st.optimisationMask.getD i false = true →
        (extractMask st.optimisationMask st.modelParams).get?
          ((st.optimisationMask.take i).count true) = st.modelParams.get? i) := by
  have hset' : applyMask st.optimisationMask st.modelParams p = some st'.modelParams := by
    unfold setParameters at hset
    rw [if_pos hmask] at hset
    obtain ⟨mp, hmp, he⟩ := Option.map_eq_some'.mp hset
    rw [← he]
    exact hmp
  refine ⟨applyMask_get_false hset', applyMask_get_true hm hset', ?_,
    extractMask_length hm, extractMask_get hm⟩
  unfold getParameters
  rw [if_pos hmask, if_pos hm]

theorem setParameters_getParameters_mask_spec_witness :
    (setParameters [10, 20] (testState [1, 2, 3] true [true, false, true]) =
      some { testState [1, 2, 3] true [true, false, true] with
          modelParams := [10, 2, 20] }) ∧
    ((∀ i, [true, false, true].getD i false = false →
        ([(10 : ℚ), 2, 20] : List ℚ).get? i = ([(1 : ℚ), 2, 3] : List ℚ).get? i) ∧
     (∀ i, [true, false, true].getD i false = true →
        ([(10 : ℚ), 2, 20] : List ℚ).get? i =
          ([(10 : ℚ), 20] : List ℚ).get? (([true, false, true].take i).count true))) := by
  constructor
  · decide
  · have h := setParameters_getParameters_mask_spec
      (testState [1, 2, 3] true [true, false, true])
      { testState [1, 2, 3] true [true, false, true] with modelParams := [10, 2, 20] }
      [10, 20] (by decide) (by decide) (by decide)
    exact ⟨h.1, h.2.1⟩

/-- Claim C5, counterexample: with mask `[true]` (one active position),
calling `setParameters` with the two-entry vector `[5, 9]` does not fail
at all — it succeeds and silently ignores the extra entry `9`, installing
`[5]`.  The claim asserts a loud precondition failure on any length
mismatch between the supplied vector and the count of `true` entries. -/
theorem setParameters_length_mismatch_cex :
    (([(5 : ℚ), 9] : List ℚ).length ≠
        (testState [0] true [true]).optimisationMask.count true) ∧
    setParameters [(5 : ℚ), 9] (testState [0] true [true]) =
      some { testState [0] true [true] with modelParams := [5] } := by
  exact ⟨by decide, by decide⟩

/-- Claim C5, amended: `setParameters` performs no length check on the
supplied active-subset vector.  A vector longer than the number of
`true` mask entries behaves exactly as its truncation to that count (the
extra entries are silently ignored), and only a vector shorter than that
count fails — as an out-of-bounds vector access, not through any
explicit precondition check. -/
theorem setParameters_ignores_extra_entries {K : Type} [LinearOrderedField K]
    (st : TrainerState K) (p : List K)
    (hmask : st.maskSet = true)
    (hm : st.optimisationMask.length = st.modelParams.length) :
    setParameters p st =
      setParameters (p.take (st.optimisationMask.count true)) st ∧
    (p.length < st.optimisationMask.count true → setParameters p st = none) := by
  constructor
  · unfold setParameters
    rw [if_pos hmask, if_pos hmask, applyMask_take p hm]
  · intro hp
    unfold setParameters
    rw [if_pos hmask, applyMask_short_none hm hp]
    rfl

theorem setParameters_ignores_extra_entries_witness :
    (setParameters [(5 : ℚ), 9] (testState [0] true [true]) =
      setParameters (([(5 : ℚ), 9] : List ℚ).take 1) (testState [0] true [true])) ∧
    setParameters ([] : List ℚ) (testState [0] true [true]) = none := by
  have h1 := setParameters_ignores_extra_entries (testState [0] true [true])
    [(5 : ℚ), 9] (by decide) (by decide)
  have h2 := setParameters_ignores_extra_entries (testState [0] true [true])
    ([] : List ℚ) (by decide) (by decide)
  exact ⟨h1.1, h2.2 (by decide)⟩

/-- Claim C6: for any model full parameter vector and any boolean mask of
the same length, `getParameters` followed by `setParameters` on its
unmodified result succeeds and leaves the model's full parameter vector
unchanged (this includes the all-`false` mask, where `getParameters`
returns the empty vector); the same holds with no mask set. -/
theorem getParameters_setParameters_roundtrip {K : Type} [LinearOrderedField K]
    (st : TrainerState K)
    (hm : st.maskSet = true → st.optimisationMask.length = st.modelParams.length) :
    ∃ xOld st', getParameters st = some xOld ∧ setParameters xOld st = some st' ∧
      st'.modelParams = st.modelParams := by
  by_cases hmask : st.maskSet = true
  · refine ⟨extractMask st.optimisationMask st.modelParams,
      { st with modelParams := st.modelParams }, ?_, ?_, rfl⟩
    · unfold getParameters
      rw [if_pos hmask, if_pos (hm hmask)]
    · unfold setParameters
      rw [if_pos hmask, applyMask_extract (hm hmask)]
      rfl
  · refine ⟨st.modelParams, { st with modelParams := st.modelParams }, ?_, ?_, rfl⟩
    · unfold getParameters
      rw [if_neg hmask]
    · unfold setParameters
      rw [if_neg hmask]

theorem getParameters_setParameters_roundtrip_witness :
    ((testState [7, 8] true [false, false]).maskSet = true →
      (testState [7, 8] true [false, false]).optimisationMask.length =
        (testState [7, 8] true [false, false]).modelParams.length) ∧
    ∃ xOld st',
      getParameters (testState [7, 8] true [false, false]) = some xOld ∧
      setParameters xOld (testState [7, 8] true [false, false]) = some st' ∧
      st'.modelParams = (testState [7, 8] true [false, false]).modelParams := by
  exact ⟨by decide,
    getParameters_setParameters_roundtrip (testState [7, 8] true [false, false])
      (by decide)⟩

lemma setParameters_congr {p : List K} {st st' : TrainerState K}
    (h : setParameters p st = some st') (q : List K) :
    setParameters q st' = setParameters q st := by
  have hrec := setParameters_modelParams_only h
  by_cases hmask : st.maskSet = true
  · have hset' : applyMask st.optimisationMask st.modelParams p = some st'.modelParams := by
      unfold setParameters at h
      rw [if_pos hmask] at h
      obtain ⟨mp, hmp, he⟩ := Option.map_eq_some'.mp h
      rw [← he]
      exact hmp
    rw [hrec]
    unfold setParameters
    rw [if_pos hmask, if_pos hmask]
    rw [applyMask_congr hset' q]
  · rw [hrec]
    unfold setParameters
    rw [if_neg hmask, if_neg hmask]

lemma objAt_congr {obj : List K → K} {p : List K} {st st' : TrainerState K}
    (h : setParameters p st = some st') (q : List K) :
    objAt obj q st' = objAt obj q st := by
  unfold objAt
  rw [setParameters_congr h q]

lemma errorFunction_some {obj : List K → K} {p : List K} {st : TrainerState K}
    {y : K} {st1 : TrainerState K} (h : errorFunction obj p st = some (y, st1)) :
    ∃ s, setParameters p st = some s ∧ y = obj s.modelParams ∧
      st1 = { s with functionEvaluations := st.functionEvaluations + 1 } := by
  rw [errorFunction_eq] at h
  obtain ⟨s, hs, he⟩ := Option.map_eq_some'.mp h
  obtain ⟨h1, h2⟩ := Prod.mk.injEq .. ▸ he
  exact ⟨s, hs, h1.symm, h2.symm⟩


lemma calculateNumericalGradient_eq (obj : List K → K) (i : ℕ) (params : List K)
    (st : TrainerState K) :
    calculateNumericalGradient obj i params st =
      (params.get? i).bind (fun xi =>
        (setParameters (params.set i (xi + st.epsilon)) st).bind (fun s1 =>
          (setParameters (params.set i (xi - st.epsilon)) st).map (fun s2 =>
            ((1 / 2) * ((obj s1.modelParams - obj s2.modelParams) / st.epsilon),
             { s2 with functionEvaluations := st.functionEvaluations + 2 })))) := by
  unfold calculateNumericalGradient
  cases hxi : params.get? i with
  | none => rfl
  | some xi =>
    simp only [Option.bind_eq_bind, Option.some_bind]
    rw [errorFunction_eq]
    cases hs1 : setParameters (params.set i (xi + st.epsilon)) st with
    | none => rfl
    | some s1 =>
      have hs1rec := setParameters_modelParams_only hs1
      have heps1 : s1.epsilon = st.epsilon := by rw [hs1rec]
      simp only [Option.map_some', Option.some_bind, hxi]
      rw [errorFunction_eq]
      rw [show setParameters (params.set i (xi - s1.epsilon))
            { s1 with functionEvaluations := st.functionEvaluations + 1 } =
          (setParameters (params.set i (xi - st.epsilon)) st).map
            (fun t => { t with functionEvaluations := st.functionEvaluations + 1 })
        from by rw [setParameters_feComm, setParameters_congr hs1, heps1]]
      cases hs2 : setParameters (params.set i (xi - st.epsilon)) st with
      | none => rfl
      | some s2 =>
        have hs2rec := setParameters_modelParams_only hs2
        have heps2 : s2.epsilon = st.epsilon := by rw [hs2rec]
        simp only [Option.map_some', Option.some_bind]
        rw [heps2]
        rfl

/-- Claim C3: whenever `calculateNumericalGradient(i, params)` succeeds,
the returned value is `(f+ - f-) / (2 * epsilon)` where `f+` and `f-`
are the objective evaluated at `params` with `epsilon` added
(respectively subtracted) at index `i`, and exactly two objective
evaluations are performed (the function evaluation counter advances by
exactly two and the gradient counter is untouched). -/
theorem calculateNumericalGradient_central_difference {K : Type} [LinearOrderedField K]
    (obj : List K → K) (i : ℕ) (params : List K) (st : TrainerState K)
    (res : K) (st' : TrainerState K)
    (h : calculateNumericalGradient obj i params st = some (res, st')) :
    ∃ xi fplus fminus, params.get? i = some xi ∧
      objAt obj (params.set i (xi + st.epsilon)) st = some fplus ∧
      objAt obj (params.set i (xi - st.epsilon)) st = some fminus ∧
      res = (fplus - fminus) / (2 * st.epsilon) ∧
      st'.functionEvaluations = st.functionEvaluations + 2 ∧
      st'.gradientEvaluations = st.gradientEvaluations := by
  rw [calculateNumericalGradient_eq, Option.bind_eq_some] at h
  obtain ⟨xi, hxi, h⟩ := h
  rw [Option.bind_eq_some] at h
  obtain ⟨s1, hs1, h⟩ := h
  rw [Option.map_eq_some'] at h
  obtain ⟨s2, hs2, heq⟩ := h
  obtain ⟨h1, h2⟩ := Prod.mk.injEq .. ▸ heq
  have hs2rec := setParameters_modelParams_only hs2
  refine ⟨xi, obj s1.modelParams, obj s2.modelParams, hxi, ?_, ?_, ?_, ?_, ?_⟩
  · unfold objAt
    rw [hs1, Option.map_some']
  · unfold objAt
    rw [hs2, Option.map_some']
  · rw [← h1, one_div_mul_eq_div, div_div, mul_comm st.epsilon 2]
  · rw [← h2]
  · rw [← h2]
    rw [hs2rec]

theorem calculateNumericalGradient_central_difference_witness :
    (calculateNumericalGradient (fun l => l.headD 0) 0 [(0 : ℚ)]
        (testState [0] false []) =
      some (1, { testState [0] false [] with
          modelParams := [-1], functionEvaluations := 2 })) ∧
    ∃ xi fplus fminus, ([(0 : ℚ)] : List ℚ).get? 0 = some xi ∧
      objAt (fun l => l.headD 0) (([(0 : ℚ)] : List ℚ).set 0 (xi + 1))
        (testState [0] false []) = some fplus ∧
      objAt (fun l => l.headD 0) (([(0 : ℚ)] : List ℚ).set 0 (xi - 1))
        (testState [0] false []) = some fminus ∧
      (1 : ℚ) = (fplus - fminus) / (2 * 1) := by
  have hrun : calculateNumericalGradient (fun l => l.headD 0) 0 [(0 : ℚ)]
      (testState [0] false []) =
      some (1, { testState [0] false [] with
          modelParams := [-1], functionEvaluations := 2 }) := by
    rw [calculateNumericalGradient_eq]
    norm_num [setParameters, testState]
  have h := calculateNumericalGradient_central_difference (fun l => l.headD 0) 0
    [(0 : ℚ)] (testState [0] false []) 1
    { testState [0] false [] with modelParams := [-1], functionEvaluations := 2 }
    hrun
  obtain ⟨xi, fp, fm, hxi, hp, hm, hres, -, -⟩ := h
  exact ⟨hrun, xi, fp, fm, hxi, hp, hm, hres⟩

lemma lineFunction_some_state {K : Type} [LinearOrderedField K]
    (obj : List K → K) (param : List K) (lam : K) (direction : List K)
    (st : TrainerState K) (y : K) (st' : TrainerState K)
    (h : lineFunction obj param lam direction st = some (y, st')) :
    st'.modelParams = st.modelParams ∧
    getParameters st' = getParameters st ∧
    objAt obj (List.zipWith (fun x d => x + lam * d) param direction) st = some y ∧
    st' = { st with functionEvaluations := st.functionEvaluations + 1 } := by
  unfold lineFunction at h
  simp only [Option.bind_eq_bind] at h
  rw [Option.bind_eq_some] at h
  obtain ⟨xOld, hxo, h⟩ := h
  rw [Option.bind_eq_some] at h
  obtain ⟨⟨f, st1⟩, hef, h⟩ := h
  rw [Option.bind_eq_some] at h
  obtain ⟨st2, hsp, h⟩ := h
  obtain ⟨s1, hs1, hy, hst1⟩ := errorFunction_some hef
  have hrestore : setParameters xOld st = some st := by
    by_cases hmask : st.maskSet = true
    · have hm : st.optimisationMask.length = st.modelParams.length := by
        unfold getParameters at hxo
        rw [if_pos hmask] at hxo
        by_cases hl : st.optimisationMask.length = st.modelParams.length
        · exact hl
        · rw [if_neg hl] at hxo
          exact absurd hxo (by simp)
      have hxo' : xOld = extractMask st.optimisationMask st.modelParams := by
        unfold getParameters at hxo
        rw [if_pos hmask, if_pos hm] at hxo
        exact (Option.some.injEq _ _ ▸ hxo).symm
      unfold setParameters
      rw [if_pos hmask, hxo', applyMask_extract hm]
      rfl
    · have hxo' : xOld = st.modelParams := by
        unfold getParameters at hxo
        rw [if_neg hmask] at hxo
        exact (Option.some.injEq _ _ ▸ hxo).symm
      unfold setParameters
      rw [if_neg hmask, hxo']
  have hsp' : setParameters xOld st1 =
      some { st with functionEvaluations := st.functionEvaluations + 1 } := by
    rw [hst1, setParameters_feComm, setParameters_congr hs1, hrestore]
    rfl
  rw [hsp'] at hsp
  have hst2 : st2 = { st with functionEvaluations := st.functionEvaluations + 1 } :=
    (Option.some.injEq _ _ ▸ hsp).symm
  simp only [Option.pure_def, Option.some.injEq, Prod.mk.injEq] at h
  obtain ⟨h1, h2⟩ := h
  refine ⟨?_, ?_, ?_, ?_⟩
  · rw [← h2, hst2]
  · rw [← h2, hst2]
    unfold getParameters
    by_cases hmask : st.maskSet = true <;> simp [hmask]
  · unfold objAt
    rw [hs1, Option.map_some', ← h1, hy]
  · rw [← h2, hst2]

/-- Claim C10: whenever `lineFunction(param, lambda, direction)`
succeeds, it has evaluated the objective at `param + lambda * direction`
and restored the saved parameters: the final state is the initial state
with only the function evaluation counter advanced, so the model's full
parameter vector — and hence the vector observed through
`getParameters` — equals its value before the call. -/
theorem lineFunction_restores_parameters {K : Type} [LinearOrderedField K]
    (obj : List K → K) (param : List K) (lam : K) (direction : List K)
    (st : TrainerState K) (y : K) (st' : TrainerState K)
    (h : lineFunction obj param lam direction st = some (y, st')) :
    st'.modelParams = st.modelParams ∧
    getParameters st' = getParameters st ∧
    objAt obj (List.zipWith (fun x d => x + lam * d) param direction) st = some y ∧
    st' = { st with functionEvaluations := st.functionEvaluations + 1 } :=
  lineFunction_some_state obj param lam direction st y st' h

theorem lineFunction_restores_parameters_witness :
    (lineFunction (fun l => l.headD 0) [(5 : ℚ)] 1 [3]
        (testState [1, 2] true [true, false]) =
      some (8, { testState [1, 2] true [true, false] with
          functionEvaluations := 1 })) ∧
    ({ testState [1, 2] true [true, false] with
        functionEvaluations := 1 } : TrainerState ℚ).modelParams =
      (testState [1, 2] true [true, false]).modelParams := by
  have hrun : lineFunction (fun l => l.headD 0) [(5 : ℚ)] 1 [3]
      (testState [1, 2] true [true, false]) =
      some (8, { testState [1, 2] true [true, false] with
          functionEvaluations := 1 }) := by
    norm_num [lineFunction, getParameters, setParameters, errorFunction, applyMask,
      extractMask, testState, Option.bind_eq_bind]
  have h := lineFunction_restores_parameters (fun l => l.headD 0) [(5 : ℚ)] 1 [3]
    (testState [1, 2] true [true, false]) 8
    { testState [1, 2] true [true, false] with functionEvaluations := 1 } hrun
  exact ⟨hrun, h.1⟩

lemma calculateNumericalGradient_state {obj : List K → K} {i : ℕ} {params : List K}
    {st : TrainerState K} {res : K} {st' : TrainerState K}
    (h : calculateNumericalGradient obj i params st = some (res, st')) :
    ∃ v, st' = { st with
        modelParams := v, functionEvaluations := st.functionEvaluations + 2 } := by
  rw [calculateNumericalGradient_eq, Option.bind_eq_some] at h
  obtain ⟨xi, hxi, h⟩ := h
  rw [Option.bind_eq_some] at h
  obtain ⟨s1, hs1, h⟩ := h
  rw [Option.map_eq_some'] at h
  obtain ⟨s2, hs2, heq⟩ := h
  obtain ⟨h1, h2⟩ := Prod.mk.injEq .. ▸ heq
  refine ⟨s2.modelParams, ?_⟩
  rw [← h2, setParameters_modelParams_only hs2]

lemma errorFunction_state {obj : List K → K} {p : List K} {st : TrainerState K}
    {y : K} {st1 : TrainerState K} (h : errorFunction obj p st = some (y, st1)) :
    ∃ v, st1 = { st with
        modelParams := v, functionEvaluations := st.functionEvaluations + 1 } := by
  obtain ⟨s, hs, _, hrec⟩ := errorFunction_some h
  refine ⟨s.modelParams, ?_⟩
  rw [hrec, setParameters_modelParams_only hs]

lemma numericalGradientsLoop_counters {obj : List K → K} {params : List K} :
    ∀ (n i : ℕ) (st : TrainerState K) (g : List K) (st' : TrainerState K),
    numericalGradientsLoop obj params i n st = some (g, st') →
    ∃ v, st' = { st with
        modelParams := v, functionEvaluations := st.functionEvaluations + 2 * n } := by
  intro n
  induction n with
  | zero =>
    intro i st g st' h
    unfold numericalGradientsLoop at h
    simp only [Option.some.injEq, Prod.mk.injEq] at h
    refine ⟨st.modelParams, ?_⟩
    rw [← h.2]
    rfl
  | succ n ih =>
    intro i st g st' h
    unfold numericalGradientsLoop at h
    simp only [Option.bind_eq_bind] at h
    rw [Option.bind_eq_some] at h
    obtain ⟨⟨gi, st1⟩, hc, h⟩ := h
    rw [Option.bind_eq_some] at h
    obtain ⟨⟨rest, st2⟩, hr, h⟩ := h
    simp only [Option.pure_def, Option.some.injEq, Prod.mk.injEq] at h
    obtain ⟨-, h2⟩ := h
    obtain ⟨v1, hst1⟩ := calculateNumericalGradient_state hc
    subst hst1
    obtain ⟨v2, hst2⟩ := ih (i + 1) _ rest st2 hr
    dsimp only at hst2
    refine ⟨v2, ?_⟩
    rw [← h2, hst2,
      show st.functionEvaluations + 2 + 2 * n =
        st.functionEvaluations + 2 * (n + 1) from by ring]

lemma checkGradLoop_spec {obj : List K → K} {xOld : List K} :
    ∀ (gs : List K) (i pos : ℕ) (st : TrainerState K) (rep : List (K × K))
      (st' : TrainerState K),
    checkGradLoop obj xOld i pos gs st = some (rep, st') →
    (∃ v n, st' = { st with modelParams := v, functionEvaluations := n } ∧
        st.functionEvaluations ≤ n) ∧
    rep.length = gs.length ∧
    (∀ j, st.maskSet = true → st.optimisationMask.get? (i + j) = some false →
        j < gs.length → rep.get? j = some (0, 0)) := by
  intro gs
  induction gs with
  | nil =>
    intro i pos st rep st' h
    unfold checkGradLoop at h
    simp only [Option.some.injEq, Prod.mk.injEq] at h
    obtain ⟨h1, h2⟩ := h
    refine ⟨⟨st.modelParams, st.functionEvaluations, by rw [← h2], le_refl _⟩, ?_, ?_⟩
    · rw [← h1]
      rfl
    · intro j _ _ hj
      simp at hj
  | cons gi gs ih =>
    intro i pos st rep st' h
    unfold checkGradLoop at h
    by_cases hmask : st.maskSet = true
    · rw [if_pos hmask] at h
      cases hmi : st.optimisationMask.get? i with
      | none => rw [hmi] at h; exact absurd h (by simp)
      | some b =>
        rw [hmi] at h
        cases b with
        | true =>
          simp only [Option.bind_eq_bind] at h
          rw [Option.bind_eq_some] at h
          obtain ⟨⟨delta, st1⟩, hc, h⟩ := h
          rw [Option.bind_eq_some] at h
          obtain ⟨⟨rest, st2⟩, hr, h⟩ := h
          simp only [Option.pure_def, Option.some.injEq, Prod.mk.injEq] at h
          obtain ⟨h1, h2⟩ := h
          obtain ⟨v1, hst1⟩ := calculateNumericalGradient_state hc
          subst hst1
          obtain ⟨⟨v2, n2, hst2, hn2⟩, hlen, hrows⟩ := ih (i + 1) (pos + 1) _ rest st2 hr
          dsimp only at hst2 hn2 hlen hrows
          refine ⟨⟨v2, n2, ?_, ?_⟩, ?_, ?_⟩
          · rw [← h2, hst2]
          · exact le_trans (Nat.le_add_right _ 2) hn2
          · rw [← h1]
            simp [hlen]
          · intro j hm hj hjlen
            cases j with
            | zero =>
              rw [Nat.add_zero, hmi] at hj
              exact absurd hj (by simp)
            | succ j =>
              rw [← h1]
              show rest.get? j = some (0, 0)
              refine hrows j hm ?_ ?_
              · rw [show i + 1 + j = i + (j + 1) from by ring]
                exact hj
              · simpa using hjlen
        | false =>
          simp only [Option.bind_eq_bind] at h
          rw [Option.bind_eq_some] at h
          obtain ⟨⟨rest, st2⟩, hr, h⟩ := h
          simp only [Option.pure_def, Option.some.injEq, Prod.mk.injEq] at h
          obtain ⟨h1, h2⟩ := h
          obtain ⟨⟨v2, n2, hst2, hn2⟩, hlen, hrows⟩ := ih (i + 1) pos st rest st2 hr
          refine ⟨⟨v2, n2, by rw [← h2, hst2], hn2⟩, ?_, ?_⟩
          · rw [← h1]
            simp [hlen]
          · intro j hm hj hjlen
            cases j with
            | zero =>
              rw [← h1]
              rfl
            | succ j =>
              rw [← h1]
              show rest.get? j = some (0, 0)
              refine hrows j hm ?_ ?_
              · rw [show i + 1 + j = i + (j + 1) from by ring]
                exact hj
              · simpa using hjlen
    · rw [if_neg hmask] at h
      simp only [Option.bind_eq_bind] at h
      rw [Option.bind_eq_some] at h
      obtain ⟨⟨delta, st1⟩, hc, h⟩ := h
      rw [Option.bind_eq_some] at h
      obtain ⟨⟨rest, st2⟩, hr, h⟩ := h
      simp only [Option.pure_def, Option.some.injEq, Prod.mk.injEq] at h
      obtain ⟨h1, h2⟩ := h
      obtain ⟨v1, hst1⟩ := calculateNumericalGradient_state hc
      subst hst1
      obtain ⟨⟨v2, n2, hst2, hn2⟩, hlen, hrows⟩ := ih (i + 1) (pos + 1) _ rest st2 hr
      dsimp only at hst2 hn2 hlen hrows
      refine ⟨⟨v2, n2, ?_, ?_⟩, ?_, ?_⟩
      · rw [← h2, hst2]
      · exact le_trans (Nat.le_add_right _ 2) hn2
      · rw [← h1]
        simp [hlen]
      · intro j hm _ _
        exact absurd hm hmask

/-- Claim C7, amended: within a session the evaluation counters never
decrease under any embedded trainer operation, `functionEvaluations`
advances by exactly one per objective evaluation (`errorFunction` call)
— hence by two per central-difference component and by `2·n` per
numerical gradient — and `gradientEvaluations` advances by exactly one
per analytic `errorGradients` call; an `errorGradients` call on the
numerical path leaves `gradientEvaluations` unchanged. -/
theorem evaluation_counters_spec {K : Type} [LinearOrderedField K]
    (obj : List K → K) (grad : List K → List K) (p : List K) (st : TrainerState K) :
    (∀ y st1, errorFunction obj p st = some (y, st1) →
        st1.functionEvaluations = st.functionEvaluations + 1 ∧
        st1.gradientEvaluations = st.gradientEvaluations) ∧
    (st.analyticGradients = true →
      ∀ g st', errorGradients obj grad p st = some (g, st') →
        st'.gradientEvaluations = st.gradientEvaluations + 1 ∧
        st'.functionEvaluations = st.functionEvaluations) ∧
    (st.analyticGradients = false →
      ∀ g st', errorGradients obj grad p st = some (g, st') →
        st'.gradientEvaluations = st.gradientEvaluations ∧
        st'.functionEvaluations = st.functionEvaluations + 2 * p.length) ∧
    (∀ i res st', calculateNumericalGradient obj i p st = some (res, st') →
        st'.functionEvaluations = st.functionEvaluations + 2 ∧
        st'.gradientEvaluations = st.gradientEvaluations) ∧
    (∀ lam direction y st', lineFunction obj p lam direction st = some (y, st') →
        st'.functionEvaluations = st.functionEvaluations + 1 ∧
        st'.gradientEvaluations = st.gradientEvaluations) ∧
    (∀ rep st', checkGradient obj grad st = some (rep, st') →
        st.functionEvaluations ≤ st'.functionEvaluations ∧
        st'.gradientEvaluations = st.gradientEvaluations) ∧
    (∀ st', setParameters p st = some st' →
        st'.functionEvaluations = st.functionEvaluations ∧
        st'.gradientEvaluations = st.gradientEvaluations) := by
  refine ⟨?_, ?_, ?_, ?_, ?_, ?_, ?_⟩
  · intro y st1 h
    obtain ⟨v, hrec⟩ := errorFunction_state h
    rw [hrec]
    exact ⟨rfl, rfl⟩
  · intro hag g st' h
    unfold errorGradients at h
    rw [if_pos hag, setParameters_geComm] at h
    rw [Option.map_eq_some'] at h
    obtain ⟨t, ht, heq⟩ := h
    rw [Option.map_eq_some'] at ht
    obtain ⟨s, hs, ht2⟩ := ht
    obtain ⟨-, h2⟩ := Prod.mk.injEq .. ▸ heq
    rw [← h2, ← ht2, setParameters_modelParams_only hs]
    exact ⟨rfl, rfl⟩
  · intro hag g st' h
    unfold errorGradients at h
    rw [if_neg (by rw [hag]; simp)] at h
    unfold numericalGradients at h
    simp only [Option.bind_eq_bind] at h
    rw [Option.bind_eq_some] at h
    obtain ⟨st0, hs0, h⟩ := h
    obtain ⟨v, hrec⟩ := numericalGradientsLoop_counters p.length 0 st0 g st' h
    rw [hrec, setParameters_modelParams_only hs0]
    exact ⟨rfl, rfl⟩
  · intro i res st' h
    obtain ⟨v, hrec⟩ := calculateNumericalGradient_state h
    rw [hrec]
    exact ⟨rfl, rfl⟩
  · intro lam direction y st' h
    obtain ⟨-, -, -, hrec⟩ := lineFunction_some_state obj p lam direction st y st' h
    rw [hrec]
    exact ⟨rfl, rfl⟩
  · intro rep st' h
    unfold checkGradient at h
    simp only [Option.bind_eq_bind] at h
    rw [Option.bind_eq_some] at h
    obtain ⟨xOld, hxo, h⟩ := h
    obtain ⟨⟨v, n, hrec, hn⟩, -, -⟩ :=
      checkGradLoop_spec (grad st.modelParams) 0 0 st rep st' h
    rw [hrec]
    exact ⟨hn, rfl⟩
  · intro st' h
    rw [setParameters_modelParams_only h]
    exact ⟨rfl, rfl⟩

/-- Claim C7, counterexample: with `analyticGradients = false`, a
successful `errorGradients` call goes through the numerical-gradient
path and leaves `gradientEvaluations` unchanged (it advances
`functionEvaluations` by two per parameter instead), contradicting
"gradientEvaluations [is incremented] once per gradient evaluation
(errorGradients call)". -/
theorem errorGradients_numerical_counter_cex :
    errorGradients (fun l => l.headD 0) (fun _ => [0]) [(0 : ℚ)]
        { testState [0] false [] with analyticGradients := false } =
      some ([1], { testState [0] false [] with
          analyticGradients := false
          modelParams := [-1]
          functionEvaluations := 2 }) ∧
    ({ testState [0] false [] with
        analyticGradients := false
        modelParams := [-1]
        functionEvaluations := 2 } :
          TrainerState ℚ).gradientEvaluations =
      ({ testState [0] false [] with analyticGradients := false } :
          TrainerState ℚ).gradientEvaluations := by
  constructor
  · norm_num [errorGradients, numericalGradients, numericalGradientsLoop,
      calculateNumericalGradient_eq, setParameters, testState, Option.bind_eq_bind]
  · rfl

theorem evaluation_counters_spec_witness :
    (errorFunction (fun l => l.headD 0) [(3 : ℚ)] (testState [0] false []) =
      some (3, { testState [0] false [] with
          modelParams := [3], functionEvaluations := 1 })) ∧
    ({ testState [0] false [] with
        modelParams := [3]
        functionEvaluations := 1 } : TrainerState ℚ).functionEvaluations =
      (testState [0] false []).functionEvaluations + 1 := by
  have hrun : errorFunction (fun l => l.headD 0) [(3 : ℚ)] (testState [0] false []) =
      some (3, { testState [0] false [] with
          modelParams := [3], functionEvaluations := 1 }) := by
    norm_num [errorFunction_eq, setParameters, testState]
  exact ⟨hrun, ((evaluation_counters_spec (fun l => l.headD 0) (fun _ => [0]) [3]
    (testState [0] false [])).1 3 _ hrun).1⟩

/-- Claim C9, amended: a successful `checkGradient` mutates nothing but
the model's parameter vector and the function evaluation counter (mask,
tolerances, flags, `gradientEvaluations` and `functionValue` are
untouched), its report has one row per analytic gradient entry, and for
every masked-out index the reported (numeric, analytic) pair is
`(0, 0)`.  The model's parameter vector itself is not restored (see the
counterexample). -/
theorem checkGradient_frame_spec {K : Type} [LinearOrderedField K]
    (obj : List K → K) (grad : List K → List K) (st : TrainerState K)
    (rep : List (K × K)) (st' : TrainerState K)
    (h : checkGradient obj grad st = some (rep, st')) :
    (∃ v n, st' = { st with modelParams := v, functionEvaluations := n }) ∧
    rep.length = (grad st.modelParams).length ∧
    (st.maskSet = true → ∀ j, st.optimisationMask.get? j = some false →
        j < rep.length → rep.get? j = some (0, 0)) := by
  unfold checkGradient at h
  simp only [Option.bind_eq_bind] at h
  rw [Option.bind_eq_some] at h
  obtain ⟨xOld, hxo, h⟩ := h
  obtain ⟨⟨v, n, hrec, -⟩, hlen, hrows⟩ :=
    checkGradLoop_spec (grad st.modelParams) 0 0 st rep st' h
  refine ⟨⟨v, n, hrec⟩, hlen, ?_⟩
  intro hmask j hj hjlen
  refine hrows j hmask ?_ ?_
  · rw [Nat.zero_add]
    exact hj
  · rw [← hlen]
    exact hjlen

/-- Claim C9, counterexample: after a successful `checkGradient`, the
model's full parameter vector is left at the last central-difference
evaluation point rather than restored: starting from `[0]` with
`epsilon = 1`, the final parameter vector is `[-1]`. -/
theorem checkGradient_not_restoring_cex :
    checkGradient (fun l => l.headD 0) (fun _ => [(0 : ℚ)]) (testState [0] false []) =
      some ([(1, 0)], { testState [0] false [] with
          modelParams := [-1], functionEvaluations := 2 }) ∧
    ({ testState [0] false [] with
        modelParams := [-1]
        functionEvaluations := 2 } : TrainerState ℚ).modelParams ≠
      (testState [0] false []).modelParams := by
  constructor
  · norm_num [checkGradient, checkGradLoop, getParameters,
      calculateNumericalGradient_eq, setParameters, testState, Option.bind_eq_bind]
  · norm_num [testState]

theorem checkGradient_frame_spec_witness :
    (checkGradient (fun l => l.headD 0) (fun _ => [4, 5])
        (testState [1, 2] true [false, true]) =
      some ([(0, 0), (0, 5)], { testState [1, 2] true [false, true] with
          modelParams := [1, 1], functionEvaluations := 2 })) ∧
    (∃ v n, ({ testState [1, 2] true [false, true] with
        modelParams := [1, 1], functionEvaluations := 2 } : TrainerState ℚ) =
      { testState [1, 2] true [false, true] with
          modelParams := v, functionEvaluations := n }) ∧
    ([((0 : ℚ), (0 : ℚ)), ((0 : ℚ), (5 : ℚ))] : List (ℚ × ℚ)).get? 0 =
      some (0, 0) := by
  have hrun : checkGradient (fun l => l.headD 0) (fun _ => [4, 5])
      (testState [1, 2] true [false, true]) =
      some ([(0, 0), (0, 5)], { testState [1, 2] true [false, true] with
          modelParams := [1, 1], functionEvaluations := 2 }) := by
    norm_num [checkGradient, checkGradLoop, getParameters, extractMask,
      calculateNumericalGradient_eq, setParameters, applyMask, testState,
      Option.bind_eq_bind]
  have h := checkGradient_frame_spec (fun l => l.headD 0) (fun _ => [4, 5])
    (testState [1, 2] true [false, true])
    [(0, 0), (0, 5)]
    { testState [1, 2] true [false, true] with
        modelParams := [1, 1], functionEvaluations := 2 } hrun
  exact ⟨hrun, h.1, h.2.2 rfl 0 rfl (by norm_num)⟩

lemma PHI_sq : PHI ^ 2 = PHI + 1 := by
  have h : Real.sqrt 5 ^ 2 = 5 := Real.sq_sqrt (by norm_num)
  unfold PHI
  linear_combination (1 / 4 : ℝ) * h

lemma one_lt_PHI : 1 < PHI := by
  have h2 : (2 : ℝ) < Real.sqrt 5 := (Real.lt_sqrt (by norm_num)).mpr (by norm_num)
  unfold PHI
  linarith

lemma PHI_pos : 0 < PHI := lt_trans one_pos one_lt_PHI

lemma PHI_lt_two : PHI < 2 := by
  nlinarith [PHI_sq, one_lt_PHI]

lemma PHI_gt_threehalf : (3 / 2 : ℝ) < PHI := by
  nlinarith [PHI_sq, one_lt_PHI]

/-- Claim C2, amended: an iteration of the `lineMinimiser` loop stops —
recording `functionValue := fx` and reporting `fx` — exactly when
`|x - xm| ≤ lineMinimiserParameterTolerance` and
`br_max - br_min < 4 * lineMinimiserParameterTolerance`, where `xm` is
the bracket midpoint and `lineMinimiserParameterTolerance` is the
trainer's line-minimiser parameter tolerance (a distinct configurable
field from `parameterTolerance`). -/
theorem lineMinimiserStep_stop_iff (obj : List ℝ → ℝ) (params direction : List ℝ)
    (s : LMState) (st : TrainerState ℝ) :
    lineMinimiserStep obj params direction s st =
        some (.stop s.fx { st with functionValue := s.fx }) ↔
      (|s.x - (1 / 2) * (s.brMin + s.brMax)| ≤ st.lineMinimiserParameterTolerance ∧
       s.brMax - s.brMin < 4 * st.lineMinimiserParameterTolerance) := by
  unfold lineMinimiserStep
  by_cases hc : |s.x - (1 / 2) * (s.brMin + s.brMax)| ≤
      st.lineMinimiserParameterTolerance ∧
      s.brMax - s.brMin < 4 * st.lineMinimiserParameterTolerance
  · rw [if_pos hc]
    exact iff_of_true rfl hc
  · rw [if_neg hc]
    constructor
    · intro h
      exfalso
      dsimp only at h
      split at h
      · exact absurd h (by simp)
      · simp only [Option.some.injEq] at h
        exact absurd h (by simp)
    · intro h
      exact absurd h hc

/-- Claim C2, counterexample: in the state `lineMinCexState` the
trainer's configured parameter tolerance is `1` while its line-minimiser
parameter tolerance is `1/100`; at `x = 0` in the bracket `[-1, 1]` the
claim's condition — stated with the trainer's parameter tolerance —
holds, yet the iteration does not stop, because the code tests
`lineMinimiserParameterTolerance` instead. -/
theorem lineMinimiserStep_parameterTolerance_cex :
    (|lineMinCexLM.x - (1 / 2) * (lineMinCexLM.brMin + lineMinCexLM.brMax)| ≤
        lineMinCexState.parameterTolerance ∧
      lineMinCexLM.brMax - lineMinCexLM.brMin <
        4 * lineMinCexState.parameterTolerance) ∧
    Option.map LMOutcome.isStopB
        (lineMinimiserStep (fun _ => 0) [] [] lineMinCexLM lineMinCexState) ≠
      some true := by
  constructor
  · constructor
    · norm_num [lineMinCexLM, lineMinCexState]
    · norm_num [lineMinCexLM, lineMinCexState]
  · unfold lineMinimiserStep
    rw [if_neg (by norm_num [lineMinCexLM, lineMinCexState])]
    dsimp only
    split
    · simp
    · simp [LMOutcome.isStopB]

lemma shrink_iterate_eq (a b : ℝ) (n : ℕ) :
    a + (a + (b - a) / PHI - a) / PHI ^ n = a + (b - a) / PHI ^ (n + 1) := by
  rw [add_sub_cancel_left, div_div, ← pow_succ']

lemma shrinkLoop_some_iff (g : ℝ → ℝ) (a fa : ℝ) :
    ∀ (fuel : ℕ) (b c : ℝ),
    (∃ p, shrinkLoop g a fa fuel b c (g b) = some p) ↔
      ∃ n, n ≤ fuel ∧ g (a + (b - a) / PHI ^ n) ≤ fa := by
  intro fuel
  induction fuel with
  | zero =>
    intro b c
    constructor
    · rintro ⟨p, hp⟩
      unfold shrinkLoop at hp
      by_cases hfb : g b > fa
      · rw [if_pos hfb] at hp
        exact absurd hp (by simp)
      · refine ⟨0, le_refl 0, ?_⟩
        rw [pow_zero, div_one, add_sub_cancel]
        exact not_lt.mp hfb
    · rintro ⟨n, hn, hg⟩
      obtain rfl : n = 0 := Nat.le_zero.mp hn
      rw [pow_zero, div_one, add_sub_cancel] at hg
      refine ⟨(b, c), ?_⟩
      unfold shrinkLoop
      rw [if_neg (not_lt.mpr hg)]
  | succ fuel ih =>
    intro b c
    by_cases hfb : g b > fa
    · constructor
      · rintro ⟨p, hp⟩
        unfold shrinkLoop at hp
        rw [if_pos hfb] at hp
        obtain ⟨n, hn, hg⟩ := (ih (a + (b - a) / PHI) b).mp ⟨p, hp⟩
        rw [shrink_iterate_eq] at hg
        exact ⟨n + 1, Nat.succ_le_succ hn, hg⟩
      · rintro ⟨n, hn, hg⟩
        cases n with
        | zero =>
          rw [pow_zero, div_one, add_sub_cancel] at hg
          exact absurd hg (not_le.mpr hfb)
        | succ n =>
          obtain ⟨p, hp⟩ := (ih (a + (b - a) / PHI) b).mpr
            ⟨n, Nat.succ_le_succ_iff.mp hn, by rw [shrink_iterate_eq]; exact hg⟩
          refine ⟨p, ?_⟩
          unfold shrinkLoop
          rw [if_pos hfb]
          exact hp
    · constructor
      · intro _
        refine ⟨0, Nat.zero_le _, ?_⟩
        rw [pow_zero, div_one, add_sub_cancel]
        exact not_lt.mp hfb
      · intro _
        refine ⟨(b, c), ?_⟩
        unfold shrinkLoop
        rw [if_neg hfb]

/-- Claim C8, amended: when the objective at the initial step is worse
than at the base point (`g b > fa`), `bracketMinimum` reaches the shrink
loop's exit condition within `fuel` iterations precisely when some
golden-ratio iterate `a + (b - a) / PHI ^ (n + 1)` attains a value
`≤ fa`; when no iterate ever does — which happens for locally unimodal
functions whose minimiser lies at or left of the base point — the loop
never terminates in exact real arithmetic (see the counterexample). -/
theorem bracketMinimum_shrink_terminates_iff (g : ℝ → ℝ) (a b fa : ℝ) (fuel : ℕ)
    (h : g b > fa) :
    (∃ t, bracketMinimum g a b fa fuel = some t) ↔
      ∃ n, n ≤ fuel ∧ g (a + (b - a) / PHI ^ (n + 1)) ≤ fa := by
  unfold bracketMinimum
  rw [if_pos h]
  constructor
  · rintro ⟨t, ht⟩
    rw [Option.map_eq_some'] at ht
    obtain ⟨p, hp, -⟩ := ht
    obtain ⟨n, hn, hg⟩ :=
      (shrinkLoop_some_iff g a fa fuel (a + (b - a) / PHI) b).mp ⟨p, hp⟩
    rw [shrink_iterate_eq] at hg
    exact ⟨n, hn, hg⟩
  · rintro ⟨n, hn, hg⟩
    obtain ⟨p, hp⟩ := (shrinkLoop_some_iff g a fa fuel (a + (b - a) / PHI) b).mpr
      ⟨n, hn, by rw [shrink_iterate_eq]; exact hg⟩
    exact ⟨finishBracket a p.1 p.2, by dsimp only; rw [hp]; rfl⟩

theorem bracketMinimum_shrink_terminates_iff_witness :
    ((fun t : ℝ => (t - 1 / 10) ^ 2) 1 > (fun t : ℝ => (t - 1 / 10) ^ 2) 0) ∧
    ∃ t, bracketMinimum (fun t : ℝ => (t - 1 / 10) ^ 2) 0 1
        ((fun t : ℝ => (t - 1 / 10) ^ 2) 0) 3 = some t := by
  have hgt : (fun t : ℝ => (t - 1 / 10) ^ 2) 1 >
      (fun t : ℝ => (t - 1 / 10) ^ 2) 0 := by norm_num
  have hphi4 : PHI ^ 4 = 3 * PHI + 2 := by
    linear_combination (PHI ^ 2 + PHI + 2) * PHI_sq
  have h5 : (5 : ℝ) ≤ PHI ^ 4 := by nlinarith [one_lt_PHI]
  have hpos : (0 : ℝ) < PHI ^ 4 := by positivity
  have ht2 : 1 / PHI ^ 4 ≤ 1 / 5 := one_div_le_one_div_of_le (by norm_num) h5
  have ht1 : 0 < 1 / PHI ^ 4 := by positivity
  have hcond : (fun t : ℝ => (t - 1 / 10) ^ 2) (0 + (1 - 0) / PHI ^ (3 + 1)) ≤
      (fun t : ℝ => (t - 1 / 10) ^ 2) 0 := by
    have : (0 : ℝ) + (1 - 0) / PHI ^ (3 + 1) = 1 / PHI ^ 4 := by norm_num
    rw [this]
    simp only []
    nlinarith [ht1, ht2]
  refine ⟨hgt, ?_⟩
  exact (bracketMinimum_shrink_terminates_iff (fun t : ℝ => (t - 1 / 10) ^ 2)
    0 1 ((fun t : ℝ => (t - 1 / 10) ^ 2) 0) 3 hgt).mpr ⟨3, le_refl 3, hcond⟩

lemma shrinkLoop_fLeftMin_none :
    ∀ (fuel : ℕ) (b c : ℝ), 0 < b →
    shrinkLoop fLeftMin 0 (fLeftMin 0) fuel b c (fLeftMin b) = none := by
  intro fuel
  induction fuel with
  | zero =>
    intro b c hb
    unfold shrinkLoop
    rw [if_pos (by unfold fLeftMin; nlinarith)]
  | succ fuel ih =>
    intro b c hb
    unfold shrinkLoop
    rw [if_pos (by unfold fLeftMin; nlinarith)]
    exact ih _ b (by simpa using div_pos hb PHI_pos)

/-- Claim C8, counterexample: `fLeftMin t = (t + 1) ^ 2` is strictly
unimodal (minimiser `-1`), yet starting `bracketMinimum` from the base
point `0` with initial step `1` puts it in the shrink loop, whose
iterates `1 / PHI ^ n` all keep a value above `fLeftMin 0 = 1`: for no
amount of fuel does `bracketMinimum` terminate (in exact real
arithmetic), refuting bounded termination for every locally unimodal
line function. -/
theorem bracketMinimum_nontermination_cex :
    StrictUnimodal fLeftMin ∧
    ∀ fuel, bracketMinimum fLeftMin 0 1 (fLeftMin 0) fuel = none := by
  constructor
  · refine ⟨-1, ?_, ?_⟩
    · intro s hs t ht hst
      simp only [Set.mem_Iic] at hs ht
      unfold fLeftMin
      nlinarith
    · intro s hs t ht hst
      simp only [Set.mem_Ici] at hs ht
      unfold fLeftMin
      nlinarith
  · intro fuel
    unfold bracketMinimum
    rw [if_pos (by unfold fLeftMin; norm_num)]
    dsimp only
    rw [shrinkLoop_fLeftMin_none fuel (0 + (1 - 0) / PHI) 1
      (by simpa using div_pos one_pos PHI_pos)]
    rfl

lemma fStale_zero : fStale 0 = 25 := by
  unfold fStale
  norm_num

lemma fStale_one : fStale 1 = 16 := by
  unfold fStale
  norm_num

lemma fStale_onePhi : fStale (1 + PHI) = 17 - 7 * PHI := by
  unfold fStale
  rw [if_pos (by nlinarith [PHI_lt_two] : (1 : ℝ) + PHI ≤ 5)]
  linear_combination PHI_sq

lemma fStale_five : fStale 5 = 0 := by
  unfold fStale
  norm_num

lemma fStale_fourThreePhi : fStale (4 + 3 * PHI) = (3 * PHI - 1) / 10 := by
  unfold fStale
  rw [if_neg (by nlinarith [one_lt_PHI] : ¬((4 : ℝ) + 3 * PHI ≤ 5))]
  ring

lemma c1_iter1 (n : ℕ) :
    expandLoop fStale (n + 1) 0 1 (1 + PHI) 25 16 (17 - 7 * PHI) =
      expandLoop fStale n (1 + PHI) 5 (4 + 3 * PHI) 16 (17 - 7 * PHI)
        ((3 * PHI - 1) / 10) := by
  simp only [expandLoop]
  rw [if_pos (by nlinarith [one_lt_PHI] : (17 : ℝ) - 7 * PHI < 16)]
  rw [show (1 - (1 + PHI)) * (16 - 25) - (1 - 0) * (16 - (17 - 7 * PHI)) =
      2 * PHI + 1 from by ring]
  rw [show signR (2 * PHI + 1) = 1 from by
    unfold signR
    rw [if_pos (by nlinarith [one_lt_PHI] : (0 : ℝ) < 2 * PHI + 1)]]
  rw [abs_of_pos (by nlinarith [one_lt_PHI] : (0 : ℝ) < 2 * PHI + 1)]
  rw [max_eq_left (by unfold TINY; nlinarith [one_lt_PHI] : TINY ≤ 2 * PHI + 1)]
  rw [show (1 : ℝ) -
      ((1 - (1 + PHI)) * ((1 - (1 + PHI)) * (16 - 25)) -
        (1 - 0) * ((1 - 0) * (16 - (17 - 7 * PHI)))) / (2 * (1 * (2 * PHI + 1))) =
      5 from by
    have hND : ((1 - (1 + PHI)) * ((1 - (1 + PHI)) * (16 - 25)) -
        (1 - 0) * ((1 - 0) * (16 - (17 - 7 * PHI)))) / (2 * (1 * (2 * PHI + 1))) =
        -4 := by
      rw [div_eq_iff (ne_of_gt (by nlinarith [one_lt_PHI] :
        (0 : ℝ) < 2 * (1 * (2 * PHI + 1))))]
      linear_combination (-9 : ℝ) * PHI_sq
    rw [hND]
    norm_num]
  rw [if_neg (by nlinarith [one_lt_PHI, PHI_lt_two] :
    ¬((1 - 5) * (5 - (1 + PHI)) > 0))]
  rw [show maxStep = (10 : ℝ) from rfl]
  rw [if_pos (by nlinarith [PHI_sq, one_lt_PHI] :
    ((1 + PHI) - 5) * (5 - (1 + 10 * ((1 + PHI) - 1))) > 0)]
  rw [fStale_five]
  rw [if_pos (by nlinarith [PHI_lt_two] : (0 : ℝ) < 17 - 7 * PHI)]
  rw [show (5 : ℝ) + PHI * (5 - (1 + PHI)) = 4 + 3 * PHI from by
    linear_combination (-1 : ℝ) * PHI_sq]
  rw [fStale_fourThreePhi]

lemma c1_iter2 (n : ℕ) :
    expandLoop fStale (n + 1) (1 + PHI) 5 (4 + 3 * PHI) 16 (17 - 7 * PHI)
        ((3 * PHI - 1) / 10) =
      some (5, 5 + (3528 - 1047 * PHI) / (1000 * PHI - 1074), 4 + 3 * PHI) := by
  have hNum : (0 : ℝ) < 3528 - 1047 * PHI := by nlinarith [PHI_lt_two]
  have hDen : (0 : ℝ) < 1000 * PHI - 1074 := by nlinarith [PHI_gt_threehalf]
  have hU5 : (5 : ℝ) < 5 + (3528 - 1047 * PHI) / (1000 * PHI - 1074) := by
    have := div_pos hNum hDen
    linarith
  have hUc : 5 + (3528 - 1047 * PHI) / (1000 * PHI - 1074) < 4 + 3 * PHI := by
    rw [show (4 : ℝ) + 3 * PHI = 5 + (3 * PHI - 1) from by ring]
    have h1 : (3528 - 1047 * PHI) / (1000 * PHI - 1074) < 3 * PHI - 1 := by
      rw [div_lt_iff₀ hDen]
      nlinarith [PHI_sq, one_lt_PHI, PHI_lt_two]
    linarith
  simp only [expandLoop]
  rw [if_pos (by nlinarith [PHI_lt_two] : (3 * PHI - 1) / 10 < 17 - 7 * PHI)]
  rw [show (5 - (4 + 3 * PHI)) * ((17 - 7 * PHI) - 16) = 22 + 11 * PHI from by
    linear_combination (21 : ℝ) * PHI_sq]
  rw [show (5 - (1 + PHI)) * ((17 - 7 * PHI) - (3 * PHI - 1) / 10) =
      (757 - 390 * PHI) / 10 from by linear_combination (73 / 10 : ℝ) * PHI_sq]
  rw [show (22 + 11 * PHI) - (757 - 390 * PHI) / 10 =
      (500 * PHI - 537) / 10 from by ring]
  rw [show signR ((500 * PHI - 537) / 10) = 1 from by
    unfold signR
    rw [if_pos (by nlinarith [PHI_gt_threehalf] :
      (0 : ℝ) < (500 * PHI - 537) / 10)]]
  rw [abs_of_pos (by nlinarith [PHI_gt_threehalf] :
    (0 : ℝ) < (500 * PHI - 537) / 10)]
  rw [max_eq_left (by unfold TINY; nlinarith [PHI_gt_threehalf] :
    TINY ≤ (500 * PHI - 537) / 10)]
  rw [show (5 - (4 + 3 * PHI)) * (22 + 11 * PHI) = -11 - 88 * PHI from by
    linear_combination (-33 : ℝ) * PHI_sq]
  rw [show (5 - (1 + PHI)) * ((757 - 390 * PHI) / 10) =
      (3418 - 1927 * PHI) / 10 from by linear_combination (39 : ℝ) * PHI_sq]
  rw [show (5 : ℝ) - ((-11 - 88 * PHI) - (3418 - 1927 * PHI) / 10) /
      (2 * (1 * ((500 * PHI - 537) / 10))) =
      5 + (3528 - 1047 * PHI) / (1000 * PHI - 1074) from by
    have hB : (0 : ℝ) < 2 * (1 * ((500 * PHI - 537) / 10)) := by
      nlinarith [PHI_gt_threehalf]
    have hA : ((-11 - 88 * PHI) - (3418 - 1927 * PHI) / 10) /
        (2 * (1 * ((500 * PHI - 537) / 10))) =
        -((3528 - 1047 * PHI) / (1000 * PHI - 1074)) := by
      rw [← neg_div, div_eq_div_iff hB.ne' hDen.ne']
      ring
    rw [hA]
    ring]
  rw [if_pos (mul_pos_of_neg_of_neg (by linarith) (by linarith) :
    (5 - (5 + (3528 - 1047 * PHI) / (1000 * PHI - 1074))) *
      ((5 + (3528 - 1047 * PHI) / (1000 * PHI - 1074)) - (4 + 3 * PHI)) > 0)]
  rw [show fStale (5 + (3528 - 1047 * PHI) / (1000 * PHI - 1074)) =
      ((5 + (3528 - 1047 * PHI) / (1000 * PHI - 1074)) - 5) / 10 from by
    unfold fStale
    rw [if_neg (not_le.mpr hU5)]]
  rw [if_pos (by linarith :
    ((5 + (3528 - 1047 * PHI) / (1000 * PHI - 1074)) - 5) / 10 < (3 * PHI - 1) / 10)]

lemma fStale_strictUnimodal : StrictUnimodal fStale := by
  refine ⟨5, ?_, ?_⟩
  · intro s hs t ht hst
    simp only [Set.mem_Iic] at hs ht
    unfold fStale
    rw [if_pos hs, if_pos ht]
    nlinarith
  · intro s hs t ht hst
    simp only [Set.mem_Ici] at hs ht
    unfold fStale
    rw [if_neg (by linarith : ¬(t ≤ 5))]
    by_cases hs5 : s ≤ 5
    · rw [if_pos hs5]
      have hs5' : s = 5 := le_antisymm hs5 hs
      rw [hs5']
      have : (0 : ℝ) < (t - 5) / 10 := by
        apply div_pos <;> [linarith; norm_num]
      nlinarith
    · rw [if_neg hs5]
      have : s - 5 < t - 5 := by linarith
      linarith

/-- Claim C1: refuted by evaluating the code on a concrete input.  The
line function `fStale` is strictly unimodal (minimiser `5`), yet
`bracketMinimum fStale 0 1 (fStale 0)` returns, through the first early
return of the expansion loop on its second iteration, the triple
`(5, u, 4 + 3 φ)` with `u = 5 + (3528 - 1047 φ)/(1000 φ - 1074) ≈ 8.37`,
whose middle value `fStale u ≈ 0.337` is strictly greater than
`fStale 5 = 0` at the left end — violating
`f(br_mid) ≤ f(br_min)`.  The cause is the `(c, ulimit)` branch of the
expansion loop (lines 431-436), which advances `b = c; c = u` without
rotating `fb`/`fc` before the common tail rotation, leaving stale
function values that defeat the early-return guard. -/
theorem bracketMinimum_invalid_bracket_on_unimodal :
    StrictUnimodal fStale ∧
    bracketMinimum fStale 0 1 (fStale 0) 2 =
      some (5, 5 + (3528 - 1047 * PHI) / (1000 * PHI - 1074), 4 + 3 * PHI) ∧
    fStale (5 + (3528 - 1047 * PHI) / (1000 * PHI - 1074)) > fStale 5 := by
  have hNum : (0 : ℝ) < 3528 - 1047 * PHI := by nlinarith [PHI_lt_two]
  have hDen : (0 : ℝ) < 1000 * PHI - 1074 := by nlinarith [PHI_gt_threehalf]
  have hU5 : (5 : ℝ) < 5 + (3528 - 1047 * PHI) / (1000 * PHI - 1074) := by
    have := div_pos hNum hDen
    linarith
  refine ⟨fStale_strictUnimodal, ?_, ?_⟩
  · unfold bracketMinimum
    rw [if_neg (by rw [fStale_one, fStale_zero]; norm_num)]
    dsimp only
    rw [show (1 : ℝ) + PHI * (1 - 0) = 1 + PHI from by ring]
    rw [fStale_zero, fStale_one, fStale_onePhi]
    show expandLoop fStale (1 + 1) 0 1 (1 + PHI) 25 16 (17 - 7 * PHI) =
      some (5, 5 + (3528 - 1047 * PHI) / (1000 * PHI - 1074), 4 + 3 * PHI)
    rw [c1_iter1 1]
    show expandLoop fStale (0 + 1) (1 + PHI) 5 (4 + 3 * PHI) 16 (17 - 7 * PHI)
        ((3 * PHI - 1) / 10) =
      some (5, 5 + (3528 - 1047 * PHI) / (1000 * PHI - 1074), 4 + 3 * PHI)
    exact c1_iter2 0
  · rw [fStale_five]
    rw [show fStale (5 + (3528 - 1047 * PHI) / (1000 * PHI - 1074)) =
        ((5 + (3528 - 1047 * PHI) / (1000 * PHI - 1074)) - 5) / 10 from by
      unfold fStale
      rw [if_neg (not_le.mpr hU5)]]
    have : (0 : ℝ) < ((5 + (3528 - 1047 * PHI) / (1000 * PHI - 1074)) - 5) / 10 := by
      apply div_pos <;> [linarith; norm_num]
    linarith
